import Mathlib

/-!
Spectrum analyzer element (`gst/spectrum/gstspectrum.c`)

A shallow embedding of the element's per-block processing function
`gst_spectrum_chain`, its link function `gst_spectrum_link`, its property
setter `gst_spectrum_set_property` and its instance initialiser.

Conventions of the embedding.

* C `int` / `gint16` / `guint8` values are `Int`; a conversion to a narrower
  type is an explicit wrap (`to_gint16`, `to_guint8`, `to_gint`, `to_gsize`).
* A C array is a `List`; every read and write is bounds checked and the
  enclosing function returns `none` when the C code would have undefined
  behaviour (out-of-bounds access, division by zero, a failed allocation).
* Memory obtained with `g_new` (not zeroed) is a list of `Option Int` cells
  that start as `none`; a store turns a cell into `some v`.
* The three numeric routines that the file only declares
  (`gst_spectrum_window`, `gst_spectrum_fix_fft`, `gst_spectrum_fix_loud`)
  are the fields of the structure `Kernels`.
-/

namespace Spectrum

/-! ## Constants and machine arithmetic -/

/-- The C macro `SPECTRUM_DEFAULT_WIDTH`. -/
def SPECTRUM_DEFAULT_WIDTH : Int := 75

/-- The C macro `SPECTRUM_MAX_WIDTH` (limited by the FFT code). -/
def SPECTRUM_MAX_WIDTH : Int := 1024

/-- Conversion of a C `int` to `gint16` (two's complement wrap). -/
def to_gint16 (x : Int) : Int := (x + 32768) % 65536 - 32768

/-- Conversion to `guint8` (reduction modulo 256). -/
def to_guint8 (x : Int) : Int := x % 256

/-- Conversion to `gint`, a signed 32-bit integer. -/
def to_gint (x : Int) : Int := (x + 2147483648) % 4294967296 - 2147483648

/-- Conversion to `gsize` / `size_t`, an unsigned 64-bit integer. -/
def to_gsize (x : Int) : Int := x % 18446744073709551616

/-- The GLib macro `MIN(a, b)`, that is `((a) < (b)) ? (a) : (b)`. -/
def MIN (a b : Int) : Int := if a < b then a else b

/-- C integer division: truncation toward zero, undefined for a zero divisor. -/
def c_div (a b : Int) : Option Int := if b = 0 then none else some (Int.tdiv a b)

/-- Read `a[k]` of a C array; `none` when `k` is outside the array. -/
def load (a : List Int) (k : Int) : Option Int :=
  if 0 ≤ k then a[k.toNat]? else none

/-- Write `a[k] = v` into a C array; `none` when `k` is outside the array. -/
def store {α : Type} (a : List α) (k : Int) (v : α) : Option (List α) :=
  if 0 ≤ k ∧ k < a.length then some (a.set k.toNat v) else none

/-- Zero-filled array of `n` elements, as returned by `g_new0 (gint16, n)`. -/
def g_new0 (n : Int) : List Int := List.replicate n.toNat 0

/-- Uninitialised array of `n` bytes, as returned by `g_new (guint8, n)`; a negative
count converts to a huge `gsize` and the allocation aborts. -/
def g_new (n : Int) : Option (List (Option Int)) :=
  if 0 ≤ n then some (List.replicate n.toNat none) else none

/-- The library routine `memcpy (dest, src, n * sizeof (gint16))` on `gint16` arrays,
with `n` counted in elements: the first `n` elements of `dest` are replaced by the first
`n` elements of `src`. A count that exceeds either array (or is negative, hence huge once
converted to `size_t`) is undefined. -/
def memcpy (dest src : List Int) (n : Int) : Option (List Int) :=
  if 0 ≤ n ∧ n ≤ dest.length ∧ n ≤ src.length then
    some (src.take n.toNat ++ dest.drop n.toNat)
  else none

/-! ## Data model -/

/-- The fields of `GstSpectrum` that the numeric code uses. -/
structure GstSpectrum where
  width : Int
  channels : Int
deriving DecidableEq

/-- An incoming `GstBuffer`: `data` viewed as a `gint16` array (as the chain function
casts it) and `size` in bytes (a `guint`). -/
structure GstBuffer where
  data : List Int
  size : Int
deriving DecidableEq

/-- An outgoing `GstBuffer`: `data` is the `guint8` array allocated with `g_new`
(a cell is `none` until it is written) and `size` is its `GST_BUFFER_SIZE`. -/
structure SpectBuffer where
  data : List (Option Int)
  size : Int
deriving DecidableEq

/-- A well-formed block of signed 16-bit PCM: `size` counts the bytes of `data`, fits a
`guint`, and every sample is in the `gint16` range. -/
def GstBuffer.is_pcm16 (buf : GstBuffer) : Prop :=
  buf.size = 2 * (buf.data.length : Int) ∧ buf.size < 4294967296 ∧
    ∀ x ∈ buf.data, -32768 ≤ x ∧ x ≤ 32767

/-- Modelled from the spec: the window, FFT and loudness routines are declared in
`gstspectrum.c` (lines 69-72) but defined in another file of the element, which is
missing. They are taken as functions on the arrays they update in place; the `length`
fields say that an in-place update cannot resize a C array. `fix_fft` returns the
updated `(fr, fi)`; its `int` status is ignored by the caller. -/
structure Kernels where
  gst_spectrum_window : List Int → Int → List Int
  gst_spectrum_fix_fft : List Int → List Int → Int → Bool → List Int × List Int
  gst_spectrum_fix_loud : List Int → List Int → List Int → Int → Int → List Int
  window_length : ∀ fr n, (gst_spectrum_window fr n).length = fr.length
  fix_fft_length : ∀ fr fi m inv,
    (gst_spectrum_fix_fft fr fi m inv).1.length = fr.length ∧
    (gst_spectrum_fix_fft fr fi m inv).2.length = fi.length
  fix_loud_length : ∀ loud fr fi n s,
    (gst_spectrum_fix_loud loud fr fi n s).length = loud.length

/-! ## `gst_spectrum_chain` -/

/-- The local `spec_base` of the chain function (2^10 = 1024). -/
def spec_base : Int := 10

/-- The local `spec_len` of the chain function. -/
def spec_len : Int := 1024

/-- Line 193: `samples_n = GST_BUFFER_SIZE (buf) / (spectrum->channels * sizeof (gint16))`.
The product is computed in `size_t` (so `channels` is converted to it first), the
quotient is a `size_t` and is converted to `gint` by the assignment. -/
def samples_count (size channels : Int) : Option Int :=
  match c_div size (to_gsize (to_gsize channels * 2)) with
  | some q => some (to_gint q)
  | none => none

/-- Lines 205-206: the stereo loop
`for (i = 0; i < MIN (spec_len, samples_n); i++) re[i] = (samples[i*2] + samples[i*2+1]) >> 1;`
started at counter `i` with the current contents `re`; `bound` is the value of
`MIN (spec_len, samples_n)`. The sum is an `int`, `>> 1` is the arithmetic shift and the
store converts to `gint16`. -/
def downmix_loop (samples : List Int) (bound : Int) (i : Int) (re : List Int) :
    Option (List Int) :=
  if i < bound then
    match load samples (i * 2), load samples (i * 2 + 1) with
    | some l, some r =>
      match store re i (to_gint16 ((l + r) >>> (1 : Nat))) with
      | some re1 => downmix_loop samples bound (i + 1) re1
      | none => none
    | _, _ => none
  else some re
termination_by (bound - i).toNat
decreasing_by omega

/-- Lines 192-209: the frame adapter. Returns the zero-padded real array `re`, the
zeroed imaginary array `im` and `samples_n`. -/
def chain_fill (channels : Int) (buf : GstBuffer) : Option (List Int × List Int × Int) :=
  match samples_count buf.size channels with
  | none => none
  | some samples_n =>
    let re := g_new0 spec_len
    let im := g_new0 spec_len
    match (if channels = 2 then downmix_loop buf.data (MIN spec_len samples_n) 0 re
           else memcpy re buf.data (MIN spec_len samples_n)) with
    | none => none
    | some re1 => some (re1, im, samples_n)

/-- Lines 211-214: the window over the first `MIN (spec_len, samples_n)` samples, then
the forward FFT. Returns the transformed `(re, im)`. -/
def chain_transform (K : Kernels) (channels : Int) (buf : GstBuffer) :
    Option (List Int × List Int) :=
  match chain_fill channels buf with
  | none => none
  | some (re, im, samples_n) =>
    let re1 := K.gst_spectrum_window re (MIN spec_len samples_n)
    some (K.gst_spectrum_fix_fft re1 im spec_base false)

/-- Line 215: `gst_spectrum_fix_loud (loud, re, im, spec_len, 0)` on a zeroed `loud`. -/
def chain_loud (K : Kernels) (channels : Int) (buf : GstBuffer) : Option (List Int) :=
  match chain_transform K channels buf with
  | none => none
  | some (re, im) => some (K.gst_spectrum_fix_loud (g_new0 spec_len) re im spec_len 0)

/-- Lines 223-226: the value stored into `spect[i]` for the loudness `l = loud[pos]`;
the store converts the `int` to `guint8`. -/
def bar_of (l : Int) : Int :=
  if l > -60 then to_guint8 (Int.tdiv (l + 60) 2) else 0

/-- Lines 222-229: the bucketing loop
`for (i = 0, pos = 0; i < spectrum->width; i++, pos += step)`
started at counter `i`, position `pos` and current contents `spect`. -/
def bucket_loop (loud : List Int) (width step : Int) (i pos : Int)
    (spect : List (Option Int)) : Option (List (Option Int)) :=
  if i < width then
    match load loud pos with
    | some l =>
      match store spect i (some (bar_of l)) with
      | some spect1 => bucket_loop loud width step (i + 1) (pos + step) spect1
      | none => none
    | none => none
  else some spect
termination_by (width - i).toNat
decreasing_by omega

/-- Lines 220-229: the quantizer, from a loudness array and the configured width to the
byte array `spect`. -/
def quantize (loud : List Int) (width : Int) : Option (List (Option Int)) :=
  match c_div spec_len width with
  | none => none
  | some step =>
    match g_new width with
    | none => none
    | some spect => bucket_loop loud width step 0 0 spect

/-- The function `gst_spectrum_chain`: the result is the list of buffers pushed on the
source pad by this call (`none` when the call has undefined behaviour). -/
def gst_spectrum_chain (K : Kernels) (spectrum : GstSpectrum) (buf : GstBuffer) :
    Option (List SpectBuffer) :=
  match chain_loud K spectrum.channels buf with
  | none => none
  | some loud =>
    match quantize loud spectrum.width with
    | none => none
    | some spect => some [{ data := spect, size := spectrum.width }]

/-! ## Instance set-up, configuration and negotiation -/

/-- The function `gst_spectrum_init` (lines 129-139) on the numeric fields: the pads are
created and `width` is set to the default; `channels` is left as allocated. -/
def gst_spectrum_init (spectrum : GstSpectrum) : GstSpectrum :=
  { spectrum with width := SPECTRUM_DEFAULT_WIDTH }

/-- The property identifier `ARG_0` of the anonymous `enum`. -/
def ARG_0 : Nat := 0

/-- The property identifier `ARG_WIDTH` of the anonymous `enum`. -/
def ARG_WIDTH : Nat := 1

/-- The function `gst_spectrum_set_property` (lines 141-157): `ARG_WIDTH` stores the
integer carried by the value, any other identifier only warns. -/
def gst_spectrum_set_property (spectrum : GstSpectrum) (prop_id : Nat) (value : Int) :
    GstSpectrum :=
  if prop_id = ARG_WIDTH then { spectrum with width := value } else spectrum

/-- The integer parameter specification built by `g_param_spec_int`. -/
structure GParamSpecInt where
  minimum : Int
  maximum : Int
  default_value : Int
deriving DecidableEq

/-- The specification installed for `ARG_WIDTH` by `gst_spectrum_class_init`
(lines 123-125): `g_param_spec_int ("width", "width", "width", 1, SPECTRUM_MAX_WIDTH,
SPECTRUM_DEFAULT_WIDTH, G_PARAM_WRITABLE)`. -/
def width_pspec : GParamSpecInt :=
  { minimum := 1, maximum := SPECTRUM_MAX_WIDTH, default_value := SPECTRUM_DEFAULT_WIDTH }

/-- Modelled from the spec: the configuration-parameter collaborator (the host object
system's property setter, which is not part of this file). Per the spec a width is
range-checked against the installed specification at configuration time; a value outside
the range is rejected and the element's setter is not called, a value inside it is handed
to `gst_spectrum_set_property`. -/
def configure_width (spectrum : GstSpectrum) (value : Int) : GstSpectrum :=
  if width_pspec.minimum ≤ value ∧ value ≤ width_pspec.maximum then
    gst_spectrum_set_property spectrum ARG_WIDTH value
  else spectrum

/-- The result type `GstPadLinkReturn`, restricted to the two values the file uses. -/
inductive GstPadLinkReturn where
  | GST_PAD_LINK_REFUSED
  | GST_PAD_LINK_OK
deriving DecidableEq

/-- The integer fields of a caps structure, by field name. -/
abbrev GstStructure := List (String × Int)

/-- The library routine `gst_structure_get_int (structure, fieldname, &value)`: `some v`
when the structure has the integer field (the call returns TRUE and stores `v`), `none`
when it has not (the call returns FALSE and stores nothing). -/
def gst_structure_get_int (st : GstStructure) (fieldname : String) : Option Int :=
  st.lookup fieldname

/-- The function `gst_spectrum_link` (lines 159-171) on the first structure of the caps:
the link is refused only when the structure has no integer field `channels`; otherwise
the value is stored in `spectrum->channels` and the link is accepted. -/
def gst_spectrum_link (spectrum : GstSpectrum) (st : GstStructure) :
    GstPadLinkReturn × GstSpectrum :=
  match gst_structure_get_int st "channels" with
  | none => (GstPadLinkReturn.GST_PAD_LINK_REFUSED, spectrum)
  | some c => (GstPadLinkReturn.GST_PAD_LINK_OK, { spectrum with channels := c })

/-! ## Concrete blocks and a concrete instance of the missing routines -/

/-- A loudness array whose bin 0 holds 452 and whose other 1023 bins hold 0. -/
def loud_452 : List Int := 452 :: List.replicate 1023 0

/-- The ramp `loud[k] = k - 100` over the 1024 bins. -/
def loud_ramp : List Int := (List.range 1024).map (fun (k : Nat) => (k : Int) - 100)

/-- A stereo block of three frames: (5, -5), (3, 4), (-3, -4). -/
def stereo_block : GstBuffer := { data := [5, -5, 3, 4, -3, -4], size := 12 }

/-- A mono block of three samples. -/
def mono_block : GstBuffer := { data := [7, -9, 11], size := 6 }

/-- Modelled from the spec: the window of section 4.2, standing for the missing
`gst_spectrum_window`. It applies a per-sample amplitude shaping `shape k x` (the scaled
value of sample `x` at index `k`) to the first `n` samples and leaves the samples from `n`
on untouched; the shaping at an index does not depend on `n`, since padding must never
affect window normalisation (section 3). -/
def shaped_window (shape : Nat → Int → Int) (fr : List Int) (n : Int) : List Int :=
  (List.range fr.length).map (fun (k : Nat) =>
    if (k : Int) < n then shape k (fr.getD k 0) else fr.getD k 0)

/-- Modelled from the spec: a shaping that meets section 4.2 on the 1024-sample block, the
triangular gain `min (2k, 2 (1024 - k)) / 1024` in integer arithmetic: unity at the block
centre `k = 512`, tapering toward both ends. -/
def tri_shape (k : Nat) (x : Int) : Int :=
  Int.tdiv (x * min (2 * (k : Int)) (2 * (1024 - (k : Int)))) 1024

/-- Modelled from the spec: a loudness routine that meets what section 8 assumes of the
missing `gst_spectrum_fix_loud`: a bin of zero power gets the floor value -94 (at most
-60), any other bin the ceiling 0. -/
def floor_loud (loud fr fi : List Int) (_n _scale_shift : Int) : List Int :=
  (List.range loud.length).map (fun (k : Nat) =>
    if fr.getD k 0 * fr.getD k 0 + fi.getD k 0 * fi.getD k 0 = 0 then -94 else 0)

/-- A concrete instance of the three missing routines: the shaped window with the
triangular shaping, a transform that returns its input unchanged, and the floor
loudness. -/
def demo_kernels : Kernels where
  gst_spectrum_window := shaped_window tri_shape
  gst_spectrum_fix_fft := fun fr fi _ _ => (fr, fi)
  gst_spectrum_fix_loud := floor_loud
  window_length := fun fr n => by
    unfold shaped_window
    rw [List.length_map, List.length_range]
  fix_fft_length := fun _ _ _ _ => ⟨rfl, rfl⟩
  fix_loud_length := fun loud fr fi n s => by
    unfold floor_loud
    rw [List.length_map, List.length_range]

/-- An all-zero stereo block of two frames. -/
def silent_block : GstBuffer := { data := [0, 0, 0, 0], size := 8 }

/-- A read at an index inside the array succeeds and returns that element. -/
theorem load_eq_some (a : List Int) (k : Int) (h0 : 0 ≤ k) (h1 : k < a.length) :
    ∃ l, load a k = some l ∧ a[k.toNat]? = some l := by
  have hk : k.toNat < a.length := by omega
  exact ⟨a[k.toNat], by simp [load, h0, List.getElem?_eq_getElem hk], List.getElem?_eq_getElem hk⟩

/-- Invariant of the bucketing loop: started at column `i` with `pos = i * step`, it
completes, keeps the length of `spect` and the cells below `i`, and writes
`bar_of (loud[j * step])` into every cell `j` in `[i, width)`. -/
theorem bucket_loop_spec (loud : List Int) (width step : Int) (hs : 0 ≤ step)
    (hb : ∀ j : Int, 0 ≤ j → j < width → j * step < loud.length) :
    ∀ (n : Nat) (i pos : Int) (spect : List (Option Int)),
      (width - i).toNat = n → 0 ≤ i → i ≤ width → (spect.length : Int) = width →
      pos = i * step →
      ∃ out, bucket_loop loud width step i pos spect = some out ∧
        out.length = spect.length ∧
        (∀ j : Nat, (j : Int) < i → out[j]? = spect[j]?) ∧
        (∀ j : Nat, i ≤ (j : Int) → (j : Int) < width →
          ∃ l, load loud ((j : Int) * step) = some l ∧ out[j]? = some (some (bar_of l))) := by
  intro n
  induction n with
  | zero =>
    intro i pos spect hn hi hiw hlen hpos
    have : ¬ i < width := by omega
    rw [bucket_loop]
    simp only [this, if_false]
    refine ⟨spect, rfl, rfl, fun _ _ => rfl, ?_⟩
    intro j h1 h2
    omega
  | succ n ih =>
    intro i pos spect hn hi hiw hlen hpos
    have hlt : i < width := by omega
    have hp0 : 0 ≤ pos := by rw [hpos]; exact mul_nonneg hi hs
    have hp1 : pos < loud.length := by rw [hpos]; exact hb i hi hlt
    obtain ⟨l, hl, _⟩ := load_eq_some loud pos hp0 hp1
    have hst : store spect i (some (bar_of l)) = some (spect.set i.toNat (some (bar_of l))) := by
      simp [store, hi, hlen, hlt]
    obtain ⟨out, ho, holen, hopre, hopost⟩ :=
      ih (i + 1) (pos + step) (spect.set i.toNat (some (bar_of l))) (by omega) (by omega)
        (by omega) (by simpa using hlen) (by rw [hpos]; ring)
    refine ⟨out, ?_, ?_, ?_, ?_⟩
    · rw [bucket_loop]
      simp only [hlt, if_true, hl, hst]
      exact ho
    · simpa using holen
    · intro j hj
      rw [hopre j (by omega)]
      have : i.toNat ≠ j := by omega
      simp [List.getElem?_set_ne this]
    · intro j h1 h2
      by_cases hji : (j : Int) = i
      · refine ⟨l, ?_, ?_⟩
        · rw [hji, ← hpos]; exact hl
        · rw [hopre j (by omega)]
          have hj : i.toNat = j := by omega
          have : j < spect.length := by omega
          simp [hj, List.getElem?_set_self, this]
      · exact hopost j (by omega) h2

/-- Arithmetic of `step = spec_len / width` for a width in [1, 1024]. -/
theorem step_facts (width : Int) (h1 : 1 ≤ width) (h2 : width ≤ 1024) :
    c_div spec_len width = some (Int.tdiv 1024 width) ∧ Int.tdiv 1024 width = 1024 / width ∧
      1 ≤ Int.tdiv 1024 width ∧
      ∀ j : Int, 0 ≤ j → j < width →
        0 ≤ j * Int.tdiv 1024 width ∧ j * Int.tdiv 1024 width < 1024 := by
  have hw : width ≠ 0 := by omega
  have he : Int.tdiv 1024 width = 1024 / width :=
    Int.tdiv_eq_ediv (by norm_num) (by omega)
  have hge : 1 ≤ (1024 : Int) / width :=
    Int.le_ediv_of_mul_le (by omega) (by omega)
  have hmul : (1024 : Int) / width * width ≤ 1024 := Int.ediv_mul_le 1024 hw
  refine ⟨by simp [c_div, hw, spec_len], he, by omega, ?_⟩
  intro j hj0 hjw
  rw [he]
  constructor
  · exact mul_nonneg hj0 (by omega)
  · nlinarith

/-- The quantizer on a 1024-entry loudness array and a width in [1, 1024]: it returns
`width` cells and cell `j` holds `bar_of (loud[j * step])`. -/
theorem quantize_spec (loud : List Int) (width : Int) (hlen : loud.length = 1024)
    (h1 : 1 ≤ width) (h2 : width ≤ 1024) :
    ∃ bars, quantize loud width = some bars ∧ (bars.length : Int) = width ∧
      ∀ j : Nat, (j : Int) < width →
        ∃ l, load loud ((j : Int) * Int.tdiv 1024 width) = some l ∧
          bars[j]? = some (some (bar_of l)) := by
  obtain ⟨hc, _, hs1, hpos⟩ := step_facts width h1 h2
  have hg : g_new width = some (List.replicate width.toNat none) := by
    simp [g_new]; omega
  obtain ⟨out, ho, holen, _, hout⟩ :=
    bucket_loop_spec loud width (Int.tdiv 1024 width) (by omega)
      (fun j hj0 hjw => by rw [hlen]; exact_mod_cast (hpos j hj0 hjw).2)
      (width - 0).toNat 0 0 (List.replicate width.toNat none) rfl (by omega) (by omega)
      (by simp; omega) (by simp)
  refine ⟨out, ?_, ?_, ?_⟩
  · simp only [quantize, hc, hg]
    exact ho
  · rw [holen]; simp; omega
  · intro j hj
    exact hout j (by omega) hj

/-- Invariant of the stereo loop: started at frame `i` it completes, keeps the length of
`re` and the entries outside `[i, bound)`, and writes the shifted sum of the two samples of
frame `j` into every entry `j` in `[i, bound)`. -/
theorem downmix_loop_spec (samples : List Int) (bound : Int)
    (hsamp : 2 * bound ≤ samples.length) :
    ∀ (n : Nat) (i : Int) (re : List Int),
      (bound - i).toNat = n → 0 ≤ i → i ≤ bound → bound ≤ re.length →
      ∃ out, downmix_loop samples bound i re = some out ∧
        out.length = re.length ∧
        (∀ j : Nat, ((j : Int) < i ∨ bound ≤ (j : Int)) → out[j]? = re[j]?) ∧
        (∀ j : Nat, i ≤ (j : Int) → (j : Int) < bound →
          ∃ l r, samples[2 * j]? = some l ∧ samples[2 * j + 1]? = some r ∧
            out[j]? = some (to_gint16 ((l + r) >>> (1 : Nat)))) := by
  intro n
  induction n with
  | zero =>
    intro i re hn hi hib hre
    have : ¬ i < bound := by omega
    rw [downmix_loop]
    simp only [this, if_false]
    refine ⟨re, rfl, rfl, fun _ _ => rfl, ?_⟩
    intro j h1 h2
    omega
  | succ n ih =>
    intro i re hn hi hib hre
    have hlt : i < bound := by omega
    obtain ⟨l, hl, hl2⟩ := load_eq_some samples (i * 2) (by omega) (by omega)
    obtain ⟨r, hr, hr2⟩ := load_eq_some samples (i * 2 + 1) (by omega) (by omega)
    have hst : store re i (to_gint16 ((l + r) >>> (1 : Nat)))
        = some (re.set i.toNat (to_gint16 ((l + r) >>> (1 : Nat)))) := by
      have : i < re.length := by omega
      simp [store, hi, this]
    obtain ⟨out, ho, holen, hopre, hopost⟩ :=
      ih (i + 1) (re.set i.toNat (to_gint16 ((l + r) >>> (1 : Nat)))) (by omega) (by omega)
        (by omega) (by simpa using hre)
    refine ⟨out, ?_, ?_, ?_, ?_⟩
    · rw [downmix_loop]
      simp only [hlt, if_true, hl, hr, hst]
      exact ho
    · simpa using holen
    · intro j hj
      rw [hopre j (by omega)]
      have : i.toNat ≠ j := by omega
      simp [List.getElem?_set_ne this]
    · intro j h1 h2
      by_cases hji : (j : Int) = i
      · refine ⟨l, r, ?_, ?_, ?_⟩
        · have : (i * 2).toNat = 2 * j := by omega
          rw [← this]; exact hl2
        · have : (i * 2 + 1).toNat = 2 * j + 1 := by omega
          rw [← this]; exact hr2
        · rw [hopre j (by omega)]
          have hj : i.toNat = j := by omega
          have : j < re.length := by omega
          simp [hj, List.getElem?_set_self, this]
      · exact hopost j (by omega) h2

/-- On a well-formed block, `samples_n` for one channel is the number of samples. -/
theorem samples_count_mono (buf : GstBuffer) (h : buf.is_pcm16) :
    samples_count buf.size 1 = some (buf.data.length : Int) := by
  obtain ⟨hs, hlt, _⟩ := h
  have h0 : (0 : Int) ≤ buf.data.length := by omega
  have hd : Int.tdiv buf.size 2 = (buf.data.length : Int) := by
    rw [Int.tdiv_eq_ediv (by omega) (by norm_num)]; omega
  simp only [samples_count, c_div, to_gsize, to_gint]
  norm_num
  rw [hd]; omega

/-- On a well-formed block, `samples_n` for two channels is half the number of samples. -/
theorem samples_count_stereo (buf : GstBuffer) (h : buf.is_pcm16) :
    samples_count buf.size 2 = some ((buf.data.length : Int) / 2) := by
  obtain ⟨hs, hlt, _⟩ := h
  have h0 : (0 : Int) ≤ buf.data.length := by omega
  have hd : Int.tdiv buf.size 4 = (buf.data.length : Int) / 2 := by
    rw [Int.tdiv_eq_ediv (by omega) (by norm_num)]; omega
  simp only [samples_count, c_div, to_gsize, to_gint]
  norm_num
  rw [hd]; omega

/-- The `MIN` of GLib is the minimum. -/
theorem MIN_eq_min (a b : Int) : MIN a b = min a b := by
  unfold MIN
  split_ifs <;> omega

/-- The array `g_new0 (gint16, spec_len)` is 1024 zeros. -/
theorem g_new0_spec_len : g_new0 spec_len = List.replicate 1024 0 := by
  unfold g_new0 spec_len
  rfl

/-- The adapter on a mono block: the first 1024 samples followed by zeros. -/
theorem chain_fill_mono (buf : GstBuffer) (h : buf.is_pcm16) :
    chain_fill 1 buf =
      some (buf.data.take 1024 ++ List.replicate (1024 - min 1024 buf.data.length) 0,
        List.replicate 1024 0, (buf.data.length : Int)) := by
  have hm : MIN spec_len (buf.data.length : Int) = ((min 1024 buf.data.length : Nat) : Int) := by
    rw [MIN_eq_min]; simp [spec_len]
  have hcpy : memcpy (List.replicate 1024 0) buf.data ((min 1024 buf.data.length : Nat) : Int)
      = some (buf.data.take 1024 ++ List.replicate (1024 - min 1024 buf.data.length) 0) := by
    unfold memcpy
    rw [if_pos (by rw [List.length_replicate]; omega)]
    simp only [Int.toNat_ofNat, List.drop_replicate, Option.some.injEq]
    congr 1
    rcases Nat.le_total 1024 buf.data.length with hle | hle
    · rw [Nat.min_eq_left hle]
    · rw [Nat.min_eq_right hle, List.take_of_length_le hle, List.take_of_length_le (le_refl _)]
  simp only [chain_fill, samples_count_mono buf h, g_new0_spec_len, hm]
  rw [if_neg (by decide), hcpy]

/-- The adapter on a stereo block: 1024 entries, the shifted sums on the frames of the
block and zeros after them. -/
theorem chain_fill_stereo (buf : GstBuffer) (h : buf.is_pcm16) :
    ∃ re, chain_fill 2 buf = some (re, List.replicate 1024 0, (buf.data.length : Int) / 2) ∧
      re.length = 1024 ∧
      (∀ j : Nat, min 1024 (buf.data.length / 2) ≤ j → j < 1024 → re[j]? = some 0) ∧
      (∀ j : Nat, j < min 1024 (buf.data.length / 2) →
        ∃ l r, buf.data[2 * j]? = some l ∧ buf.data[2 * j + 1]? = some r ∧
          re[j]? = some (to_gint16 ((l + r) >>> (1 : Nat)))) := by
  have hm : MIN spec_len ((buf.data.length : Int) / 2)
      = ((min 1024 (buf.data.length / 2) : Nat) : Int) := by
    rw [MIN_eq_min]; simp [spec_len]
  obtain ⟨out, ho, holen, hopre, hopost⟩ :=
    downmix_loop_spec buf.data ((min 1024 (buf.data.length / 2) : Nat) : Int) (by omega)
      _ 0 (List.replicate 1024 0) rfl (by omega) (by omega)
      (by rw [List.length_replicate]; omega)
  rw [List.length_replicate] at holen
  refine ⟨out, ?_, holen, ?_, ?_⟩
  · simp only [chain_fill, samples_count_stereo buf h, g_new0_spec_len, hm]
    rw [if_pos trivial, ho]
  · intro j h1 h2
    rw [hopre j (Or.inr (by exact_mod_cast h1)), List.getElem?_replicate, if_pos h2]
  · intro j hj
    exact hopost j (by omega) (by exact_mod_cast hj)

/-- The stored byte in terms of floor division: the operand is positive under the guard. -/
theorem bar_of_eq (l : Int) :
    bar_of l = if l > -60 then ((l + 60) / 2) % 256 else 0 := by
  unfold bar_of to_guint8
  split_ifs with h
  · rw [Int.tdiv_eq_ediv (by omega) (by norm_num)]
  · rfl

/-- Below 452 the conversion to `guint8` does not change the bar. -/
theorem bar_of_small (l : Int) (h : l ≤ 451) :
    bar_of l = if l > -60 then (l + 60) / 2 else 0 := by
  rw [bar_of_eq]
  split_ifs with h1
  · omega
  · rfl

/-- For one or two channels the adapter returns 1024 entries that are zero from
`min (1024, samples_n)` on, and 1024 imaginary zeros. -/
theorem chain_fill_shape (channels : Int) (buf : GstBuffer)
    (hc : channels = 1 ∨ channels = 2) (h : buf.is_pcm16) :
    ∃ re, chain_fill channels buf
        = some (re, List.replicate 1024 0, buf.size / (channels * 2)) ∧
      re.length = 1024 ∧
      ∀ j : Nat, min 1024 (buf.size / (channels * 2)) ≤ (j : Int) → j < 1024 →
        re[j]? = some 0 := by
  have hsz := h.1
  rcases hc with rfl | rfl
  · refine ⟨buf.data.take 1024 ++ List.replicate (1024 - min 1024 buf.data.length) 0,
      ?_, ?_, ?_⟩
    · rw [chain_fill_mono buf h]
      have : buf.size / (1 * 2) = (buf.data.length : Int) := by omega
      rw [this]
    · rw [List.length_append, List.length_take, List.length_replicate]; omega
    · intro j h1 h2
      have hj : min 1024 buf.data.length ≤ j := by omega
      rw [List.getElem?_append_right (by rw [List.length_take]; exact hj),
        List.getElem?_replicate, if_pos (by rw [List.length_take]; omega)]
  · obtain ⟨re, hre, hlen, hpad, _⟩ := chain_fill_stereo buf h
    have : buf.size / (2 * 2) = (buf.data.length : Int) / 2 := by omega
    refine ⟨re, by rw [hre, this], hlen, ?_⟩
    intro j h1 h2
    exact hpad j (by omega) h2

/-- For one or two channels the loudness stage returns an array of 1024 entries. -/
theorem chain_loud_shape (K : Kernels) (channels : Int) (buf : GstBuffer)
    (hc : channels = 1 ∨ channels = 2) (h : buf.is_pcm16) :
    ∃ loud, chain_loud K channels buf = some loud ∧ loud.length = 1024 := by
  obtain ⟨re, hre, _, _⟩ := chain_fill_shape channels buf hc h
  refine ⟨K.gst_spectrum_fix_loud (g_new0 spec_len)
    (K.gst_spectrum_fix_fft (K.gst_spectrum_window re
      (MIN spec_len (buf.size / (channels * 2)))) (List.replicate 1024 0) spec_base false).1
    (K.gst_spectrum_fix_fft (K.gst_spectrum_window re
      (MIN spec_len (buf.size / (channels * 2)))) (List.replicate 1024 0) spec_base false).2
    spec_len 0, ?_, ?_⟩
  · simp only [chain_loud, chain_transform, hre]
  · rw [K.fix_loud_length, g_new0_spec_len, List.length_replicate]

/-- A bar is a byte value. -/
theorem bar_of_range (l : Int) : 0 ≤ bar_of l ∧ bar_of l < 256 := by
  rw [bar_of_eq]
  split_ifs <;> omega

/-- The shifted sum of two `gint16` samples is the floor of their mean, and it fits in
a `gint16`. -/
theorem sar1_gint16 (l r : Int) (hl : -32768 ≤ l ∧ l ≤ 32767) (hr : -32768 ≤ r ∧ r ≤ 32767) :
    to_gint16 ((l + r) >>> (1 : Nat)) = Int.fdiv (l + r) 2 ∧ (l + r) >>> (1 : Nat) = Int.fdiv (l + r) 2 ∧
      2 * Int.fdiv (l + r) 2 ≤ l + r ∧ l + r < 2 * Int.fdiv (l + r) 2 + 2 ∧
      -32768 ≤ Int.fdiv (l + r) 2 ∧ Int.fdiv (l + r) 2 ≤ 32767 := by
  have h1 : (l + r) >>> (1 : Nat) = (l + r) / 2 := by
    rw [Int.shiftRight_eq_div_pow]; norm_num
  have h2 : Int.fdiv (l + r) 2 = (l + r) / 2 := Int.fdiv_eq_ediv _ (by norm_num)
  rw [h1, h2]
  unfold to_gint16
  refine ⟨by omega, rfl, by omega, by omega, by omega, by omega⟩

/-- The block `mono_block` is well formed. -/
theorem mono_block_pcm16 : mono_block.is_pcm16 := by
  unfold GstBuffer.is_pcm16 mono_block
  decide

/-- The block `stereo_block` is well formed. -/
theorem stereo_block_pcm16 : stereo_block.is_pcm16 := by
  unfold GstBuffer.is_pcm16 stereo_block
  decide

/-- Every entry of an all-zero list is zero. -/
theorem getD_replicate_zero (N k : Nat) : (List.replicate N (0 : Int)).getD k 0 = 0 := by
  rw [List.getD_eq_getElem?_getD, List.getElem?_replicate]
  split_ifs <;> rfl

/-- The triangular shaping maps a zero sample to zero. -/
theorem tri_shape_zero (k : Nat) : tri_shape k 0 = 0 := by
  unfold tri_shape
  rw [zero_mul]
  exact Int.zero_tdiv _

/-- A shaping that maps zero to zero leaves an all-zero sequence all-zero. -/
theorem shaped_window_zeros (shape : Nat → Int → Int) (h0 : ∀ i, shape i 0 = 0)
    (N : Nat) (n : Int) :
    shaped_window shape (List.replicate N 0) n = List.replicate N 0 := by
  rw [List.eq_replicate_iff]
  unfold shaped_window
  refine ⟨by rw [List.length_map, List.length_range, List.length_replicate], ?_⟩
  intro x hx
  rw [List.mem_map] at hx
  obtain ⟨k, _, rfl⟩ := hx
  rw [getD_replicate_zero]
  split_ifs
  · exact h0 k
  · rfl

/-- The floor loudness of an all-zero pair is at most -60 at every bin. -/
theorem floor_loud_zeros (N : Nat) (loud : List Int) (n s : Int) :
    ∀ x ∈ floor_loud loud (List.replicate N 0) (List.replicate N 0) n s, x ≤ -60 := by
  intro x hx
  unfold floor_loud at hx
  rw [List.mem_map] at hx
  obtain ⟨k, _, rfl⟩ := hx
  rw [getD_replicate_zero]
  norm_num

/-- On an all-zero block the adapter returns 1024 zeros. -/
theorem chain_fill_silence (channels : Int) (buf : GstBuffer)
    (hc : channels = 1 ∨ channels = 2) (h : buf.is_pcm16) (hz : ∀ x ∈ buf.data, x = 0) :
    chain_fill channels buf
      = some (List.replicate 1024 0, List.replicate 1024 0, buf.size / (channels * 2)) := by
  obtain ⟨re, hre, hlen, hpad⟩ := chain_fill_shape channels buf hc h
  have hre0 : re = List.replicate 1024 0 := by
    rw [List.eq_replicate_iff]
    refine ⟨hlen, ?_⟩
    intro x hx
    rcases hc with rfl | rfl
    · rw [chain_fill_mono buf h] at hre
      have hre1 := (Prod.mk.inj (Option.some.inj hre)).1
      rw [← hre1, List.mem_append] at hx
      rcases hx with hx | hx
      · exact hz x (List.mem_of_mem_take hx)
      · exact List.eq_of_mem_replicate hx
    · obtain ⟨re2, hre2, _, hpad2, hmix2⟩ := chain_fill_stereo buf h
      have hsame : re2 = re := by
        rw [hre2] at hre
        exact (Prod.mk.inj (Option.some.inj hre)).1
      subst hsame
      obtain ⟨j, hj, hjx⟩ := List.getElem_of_mem hx
      have hget : re2[j]? = some x := by rw [List.getElem?_eq_getElem hj, hjx]
      by_cases hjb : j < min 1024 (buf.data.length / 2)
      · obtain ⟨l, r, hl, hr, hv⟩ := hmix2 j hjb
        have hl0 := hz l (List.getElem?_mem hl)
        have hr0 := hz r (List.getElem?_mem hr)
        subst hl0 hr0
        rw [hv] at hget
        have : to_gint16 (((0 : Int) + 0) >>> (1 : Nat)) = 0 := by decide
        rw [this] at hget
        exact (Option.some.inj hget).symm
      · have := hpad2 j (by omega) (by omega)
        rw [this] at hget
        exact (Option.some.inj hget).symm
  rw [hre, hre0]

/-- The window of `demo_kernels` is the shaped window with the triangular shaping. -/
theorem demo_window_eq (fr : List Int) (n : Int) :
    demo_kernels.gst_spectrum_window fr n = shaped_window tri_shape fr n := rfl

/-- The transform of `demo_kernels` returns its input. -/
theorem demo_fix_fft_eq (fr fi : List Int) (m : Int) (inv : Bool) :
    demo_kernels.gst_spectrum_fix_fft fr fi m inv = (fr, fi) := rfl

/-- The loudness routine of `demo_kernels` is the floor loudness. -/
theorem demo_fix_loud_eq (loud fr fi : List Int) (n s : Int) :
    demo_kernels.gst_spectrum_fix_loud loud fr fi n s = floor_loud loud fr fi n s := rfl

/-- The window of `demo_kernels` on 1024 zeros. -/
theorem demo_window_zeros (n : Int) :
    demo_kernels.gst_spectrum_window (List.replicate 1024 0) n = List.replicate 1024 0 := by
  rw [demo_window_eq]
  exact shaped_window_zeros tri_shape tri_shape_zero 1024 n

/-- The transform of `demo_kernels` on 1024 zeros. -/
theorem demo_fix_fft_zeros :
    demo_kernels.gst_spectrum_fix_fft (List.replicate 1024 0) (List.replicate 1024 0) 10 false
      = (List.replicate 1024 0, List.replicate 1024 0) := by
  rw [demo_fix_fft_eq]

/-- The loudness routine of `demo_kernels` on 1024 zeros. -/
theorem demo_fix_loud_zeros :
    ∀ x ∈ demo_kernels.gst_spectrum_fix_loud (List.replicate 1024 0) (List.replicate 1024 0)
      (List.replicate 1024 0) 1024 0, x ≤ -60 := by
  rw [demo_fix_loud_eq]
  exact floor_loud_zeros 1024 _ _ _

/-- C1 (counterexample): with `loud[0] = 452` and `width = 1` the quantizer reads bin 0
and emits the byte 0, not `(452 + 60) / 2 = 256`: the store into the `guint8` array
reduces the value modulo 256. -/
theorem quantize_wraps_bar_256 :
    ∃ bars, quantize loud_452 1 = some bars ∧
      load loud_452 ((0 : Nat) * Int.tdiv 1024 1) = some 452 ∧
      bars[0]? = some (some 0) ∧
      bars[0]? ≠ some (some (if (452 : Int) > -60 then (452 + 60) / 2 else 0)) := by
  have hlen : loud_452.length = 1024 := by
    unfold loud_452
    rw [List.length_cons, List.length_replicate]
  obtain ⟨bars, hq, _, hb⟩ := quantize_spec loud_452 1 hlen (by norm_num) (by norm_num)
  obtain ⟨l, hl, hbar⟩ := hb 0 (by norm_num)
  have hload : load loud_452 ((0 : Nat) * Int.tdiv 1024 1) = some 452 := by
    have h : ((0 : Nat) : Int) * Int.tdiv 1024 1 = 0 := by norm_num
    rw [h]
    unfold load loud_452
    rw [if_pos (le_refl _), Int.toNat_zero, List.getElem?_cons_zero]
  rw [hload] at hl
  have hl452 : l = 452 := (Option.some.inj hl).symm
  subst hl452
  have h0 : bar_of 452 = 0 := by decide
  rw [h0] at hbar
  refine ⟨bars, hq, hload, hbar, ?_⟩
  rw [hbar]
  decide

/-- C1 (amended): for every loudness array of 1024 values, every width in [1, 1024] and
every column `i < width`, with `step = 1024 / width` (truncating) the quantizer reads
`l = loud[i * step]` and emits `bars[i] = ((l + 60) / 2) mod 256` when `l > -60` and 0
otherwise; this is `(l + 60) / 2` itself whenever `l ≤ 451`. For `width = 75` the step
is 13 and column `i` samples bin `13 * i` (bins 0, 13, ..., 962). -/
theorem quantize_bars (loud : List Int) (width : Int) (hlen : loud.length = 1024)
    (h1 : 1 ≤ width) (h2 : width ≤ 1024) :
    ∃ bars, quantize loud width = some bars ∧
      (∀ i : Nat, (i : Int) < width →
        ∃ l, load loud ((i : Int) * Int.tdiv 1024 width) = some l ∧
          bars[i]? = some (some (if l > -60 then ((l + 60) / 2) % 256 else 0)) ∧
          (l ≤ 451 → bars[i]? = some (some (if l > -60 then (l + 60) / 2 else 0)))) ∧
      (width = 75 → Int.tdiv 1024 width = 13 ∧ (74 : Int) * Int.tdiv 1024 width = 962 ∧
        ∀ i : Nat, i < 75 →
          ∃ l, loud[13 * i]? = some l ∧
            bars[i]? = some (some (if l > -60 then ((l + 60) / 2) % 256 else 0))) := by
  obtain ⟨bars, hq, _, hb⟩ := quantize_spec loud width hlen h1 h2
  refine ⟨bars, hq, ?_, ?_⟩
  · intro i hi
    obtain ⟨l, hl, hbar⟩ := hb i hi
    refine ⟨l, hl, ?_, ?_⟩
    · rw [hbar, bar_of_eq]
    · intro hsmall
      rw [hbar, bar_of_small l hsmall]
  · intro h75
    subst h75
    have hstep : Int.tdiv 1024 75 = 13 := by decide
    refine ⟨hstep, by rw [hstep]; norm_num, ?_⟩
    intro i hi
    obtain ⟨l, hl, hbar⟩ := hb i (by omega)
    refine ⟨l, ?_, by rw [hbar, bar_of_eq]⟩
    rw [hstep] at hl
    unfold load at hl
    rw [if_pos (by omega)] at hl
    have : ((i : Int) * 13).toNat = 13 * i := by omega
    rw [this] at hl
    exact hl

/-- C1 (witness): the amended quantizer theorem at the ramp `loud[k] = k - 100` and the
default width 75. -/
theorem quantize_bars_witness :
    loud_ramp.length = 1024 ∧
    ∃ bars, quantize loud_ramp 75 = some bars ∧
      Int.tdiv 1024 75 = 13 ∧
      ∀ i : Nat, i < 75 →
        ∃ l, loud_ramp[13 * i]? = some l ∧
          bars[i]? = some (some (if l > -60 then ((l + 60) / 2) % 256 else 0)) := by
  have hlen : loud_ramp.length = 1024 := by
    unfold loud_ramp
    rw [List.length_map, List.length_range]
  obtain ⟨bars, hq, _, h75⟩ :=
    quantize_bars loud_ramp 75 hlen
      (by decide) (by decide)
  exact ⟨hlen, bars, hq, (h75 rfl).1, (h75 rfl).2.2⟩

/-- C2: on a stereo block (`channels = 2`) the adapter succeeds and, for every frame
`i < min (1024, frame_count)` with samples `left`, `right`, stores
`re[i] = floor ((left + right) / 2)`: the value of `(left + right) >> 1`, which lies in
the 16-bit range so the store does not change it; a frame `(x, -x)` yields 0. -/
theorem stereo_downmix (buf : GstBuffer) (h : buf.is_pcm16) :
    ∃ re im, chain_fill 2 buf = some (re, im, buf.size / (2 * 2)) ∧
      ∀ i : Nat, (i : Int) < min 1024 (buf.size / (2 * 2)) →
        ∃ left right, buf.data[2 * i]? = some left ∧ buf.data[2 * i + 1]? = some right ∧
          re[i]? = some (Int.fdiv (left + right) 2) ∧
          (left + right) >>> (1 : Nat) = Int.fdiv (left + right) 2 ∧
          re[i]? = some (⌊((left + right : Int) : ℚ) / 2⌋) ∧
          (-32768 ≤ Int.fdiv (left + right) 2 ∧ Int.fdiv (left + right) 2 ≤ 32767) ∧
          (right = -left → re[i]? = some 0) := by
  obtain ⟨re, hre, _, _, hmix⟩ := chain_fill_stereo buf h
  have hsz := h.1
  have hdiv : buf.size / (2 * 2) = (buf.data.length : Int) / 2 := by omega
  refine ⟨re, List.replicate 1024 0, by rw [hre, hdiv], ?_⟩
  intro i hi
  obtain ⟨l, r, hl, hr, hv⟩ := hmix i (by omega)
  have hlr := h.2.2 l (List.getElem?_mem hl)
  have hrr := h.2.2 r (List.getElem?_mem hr)
  obtain ⟨e1, e2, f1, f2, b1, b2⟩ := sar1_gint16 l r hlr hrr
  rw [e1] at hv
  have hfloor : ⌊((l + r : Int) : ℚ) / 2⌋ = Int.fdiv (l + r) 2 := by
    rw [Int.floor_eq_iff]
    constructor
    · rw [le_div_iff₀ (by norm_num)]
      exact_mod_cast (by omega : Int.fdiv (l + r) 2 * 2 ≤ l + r)
    · rw [div_lt_iff₀ (by norm_num)]
      exact_mod_cast (by omega : l + r < (Int.fdiv (l + r) 2 + 1) * 2)
  refine ⟨l, r, hl, hr, hv, e2, by rw [hfloor]; exact hv, ⟨b1, b2⟩, ?_⟩
  intro hneg
  subst hneg
  rw [hv]
  have : l + -l = 0 := by omega
  rw [this]
  rfl

/-- C2 (witness): the down-mix theorem at the block (5, -5), (3, 4), (-3, -4). -/
theorem stereo_downmix_witness :
    stereo_block.is_pcm16 ∧
    ∃ re im, chain_fill 2 stereo_block = some (re, im, 3) ∧
      re[0]? = some 0 ∧ re[1]? = some 3 ∧ re[2]? = some (-4) := by
  have hp : stereo_block.is_pcm16 := by
    unfold GstBuffer.is_pcm16 stereo_block
    decide
  obtain ⟨re, im, hre, hall⟩ := stereo_downmix stereo_block hp
  refine ⟨hp, re, im, hre, ?_, ?_, ?_⟩
  · obtain ⟨l, r, hl, hr, hv, _⟩ := hall 0 (by decide)
    have h1 : l = 5 := (Option.some.inj hl).symm
    have h2 : r = -5 := (Option.some.inj hr).symm
    subst h1 h2
    exact hv
  · obtain ⟨l, r, hl, hr, hv, _⟩ := hall 1 (by decide)
    have h1 : l = 3 := (Option.some.inj hl).symm
    have h2 : r = 4 := (Option.some.inj hr).symm
    subst h1 h2
    exact hv
  · obtain ⟨l, r, hl, hr, hv, _⟩ := hall 2 (by decide)
    have h1 : l = -3 := (Option.some.inj hl).symm
    have h2 : r = -4 := (Option.some.inj hr).symm
    subst h1 h2
    exact hv

/-- C3: for every well-formed block and `channels` in {1, 2} the adapter succeeds with
`samples_n = size / (channels * 2)`, a real array of exactly 1024 entries whose indices
in `[min (1024, samples_n), 1024)` are all 0, and an imaginary array of 1024 zeros. -/
theorem zero_padding (channels : Int) (buf : GstBuffer)
    (hc : channels = 1 ∨ channels = 2) (h : buf.is_pcm16) :
    ∃ re im, chain_fill channels buf = some (re, im, buf.size / (channels * 2)) ∧
      re.length = 1024 ∧
      (∀ j : Nat, min 1024 (buf.size / (channels * 2)) ≤ (j : Int) → j < 1024 →
        re[j]? = some 0) ∧
      im = List.replicate 1024 0 := by
  obtain ⟨re, hre, hlen, hpad⟩ := chain_fill_shape channels buf hc h
  exact ⟨re, List.replicate 1024 0, hre, hlen, hpad, rfl⟩

/-- C3 (witness): the padding theorem at a stereo block of three frames. -/
theorem zero_padding_witness :
    ((2 : Int) = 1 ∨ (2 : Int) = 2) ∧ stereo_block.is_pcm16 ∧
    ∃ re im, chain_fill 2 stereo_block = some (re, im, 3) ∧ re.length = 1024 ∧
      (∀ j : Nat, 3 ≤ j → j < 1024 → re[j]? = some 0) ∧ im = List.replicate 1024 0 := by
  obtain ⟨re, im, hre, hlen, hpad, him⟩ :=
    zero_padding 2 stereo_block (Or.inr rfl) stereo_block_pcm16
  refine ⟨Or.inr rfl, stereo_block_pcm16, re, im, hre, hlen, ?_, him⟩
  intro j h1 h2
  refine hpad j ?_ h2
  have : stereo_block.size / (2 * 2) = 3 := by decide
  rw [this]
  omega

/-- C4: on a mono block (`channels = 1`) the adapter succeeds (no error for any frame
count) and `re[i]` is input sample `i` for every `i < min (1024, frame_count)`; the real
array is the first 1024 samples followed by zeros, so when `frame_count > 1024` it is
exactly the first 1024 samples and the later ones do not take part. -/
theorem mono_copy (buf : GstBuffer) (h : buf.is_pcm16) :
    ∃ re im, chain_fill 1 buf = some (re, im, buf.size / (1 * 2)) ∧
      (∀ i : Nat, (i : Int) < min 1024 (buf.size / (1 * 2)) →
        ∃ s, buf.data[i]? = some s ∧ re[i]? = some s) ∧
      re = buf.data.take 1024 ++ List.replicate (1024 - min 1024 buf.data.length) 0 ∧
      (1024 < buf.size / (1 * 2) → re = buf.data.take 1024) := by
  have hsz := h.1
  have hdiv : buf.size / (1 * 2) = (buf.data.length : Int) := by omega
  refine ⟨_, List.replicate 1024 0, by rw [chain_fill_mono buf h, hdiv], ?_, rfl, ?_⟩
  · intro i hi
    have hi1 : i < buf.data.length := by omega
    have hi2 : i < 1024 := by omega
    refine ⟨buf.data[i], List.getElem?_eq_getElem hi1, ?_⟩
    rw [List.getElem?_append_left (by rw [List.length_take]; omega),
      List.getElem?_take_of_lt hi2, List.getElem?_eq_getElem hi1]
  · intro hbig
    have : 1024 - min 1024 buf.data.length = 0 := by omega
    rw [this, List.replicate_zero, List.append_nil]

/-- C4 (witness): the mono theorem at a block of three samples. -/
theorem mono_copy_witness :
    mono_block.is_pcm16 ∧
    ∃ re im, chain_fill 1 mono_block = some (re, im, 3) ∧
      re = [7, -9, 11] ++ List.replicate 1021 0 := by
  obtain ⟨re, im, hre, _, heq, _⟩ := mono_copy mono_block mono_block_pcm16
  exact ⟨mono_block_pcm16, re, im, hre, heq⟩

/-- C5: for an all-zero block of any frame count, `channels` in {1, 2} and any width in
[1, 1024], the chain function pushes one buffer of `width` bytes that are all 0,
provided the missing routines behave on silence as the spec assumes: the window leaves an
all-zero sequence all-zero, the FFT of the all-zero pair is all-zero, and the loudness of
the all-zero (zero power) pair is at most -60 at every bin. -/
theorem silence_gives_zero_bars (K : Kernels) (spectrum : GstSpectrum) (buf : GstBuffer)
    (hc : spectrum.channels = 1 ∨ spectrum.channels = 2)
    (h1 : 1 ≤ spectrum.width) (h2 : spectrum.width ≤ 1024)
    (h : buf.is_pcm16) (hz : ∀ x ∈ buf.data, x = 0)
    (hw : ∀ n, K.gst_spectrum_window (List.replicate 1024 0) n = List.replicate 1024 0)
    (hf : K.gst_spectrum_fix_fft (List.replicate 1024 0) (List.replicate 1024 0) 10 false
      = (List.replicate 1024 0, List.replicate 1024 0))
    (hl : ∀ x ∈ K.gst_spectrum_fix_loud (List.replicate 1024 0) (List.replicate 1024 0)
      (List.replicate 1024 0) 1024 0, x ≤ -60) :
    ∃ out, gst_spectrum_chain K spectrum buf = some [out] ∧
      out.size = spectrum.width ∧ (out.data.length : Int) = spectrum.width ∧
      ∀ j : Nat, (j : Int) < spectrum.width → out.data[j]? = some (some 0) := by
  have hfill := chain_fill_silence spectrum.channels buf hc h hz
  have hloud : chain_loud K spectrum.channels buf
      = some (K.gst_spectrum_fix_loud (List.replicate 1024 0) (List.replicate 1024 0)
          (List.replicate 1024 0) 1024 0) := by
    simp only [chain_loud, chain_transform, hfill, hw, g_new0_spec_len]
    simp only [spec_base, spec_len, hf]
  have hlen : (K.gst_spectrum_fix_loud (List.replicate 1024 0) (List.replicate 1024 0)
      (List.replicate 1024 0) 1024 0).length = 1024 := by
    rw [K.fix_loud_length, List.length_replicate]
  obtain ⟨bars, hq, hblen, hb⟩ := quantize_spec _ spectrum.width hlen h1 h2
  refine ⟨{ data := bars, size := spectrum.width }, ?_, rfl, hblen, ?_⟩
  · simp only [gst_spectrum_chain, hloud, hq]
  · intro j hj
    obtain ⟨l, hload, hbar⟩ := hb j hj
    have hmem : l ∈ K.gst_spectrum_fix_loud (List.replicate 1024 0) (List.replicate 1024 0)
        (List.replicate 1024 0) 1024 0 := by
      unfold load at hload
      split_ifs at hload
      exact List.getElem?_mem hload
    have hle := hl l hmem
    have h0 : bar_of l = 0 := by
      unfold bar_of
      rw [if_neg (by omega)]
    rw [hbar, h0]

/-- C5 (witness): the silence theorem at a two-frame stereo block of zeros, the default
width and the concrete routines `demo_kernels`. -/
theorem silence_gives_zero_bars_witness :
    silent_block.is_pcm16 ∧ (∀ x ∈ silent_block.data, x = 0) ∧
    ∃ out, gst_spectrum_chain demo_kernels { width := 75, channels := 2 } silent_block
        = some [out] ∧
      out.size = 75 ∧ (out.data.length : Int) = 75 ∧
      ∀ j : Nat, (j : Int) < 75 → out.data[j]? = some (some 0) := by
  have hp : silent_block.is_pcm16 := by
    unfold GstBuffer.is_pcm16 silent_block
    decide
  have hz : ∀ x ∈ silent_block.data, x = 0 := by
    unfold silent_block
    decide
  exact ⟨hp, hz,
    silence_gives_zero_bars demo_kernels { width := 75, channels := 2 } silent_block
      (Or.inr rfl) (by decide) (by decide) hp hz
      demo_window_zeros demo_fix_fft_zeros demo_fix_loud_zeros⟩

/-- C6: for every well-formed block, `channels` in {1, 2} and width in [1, 1024], and
whatever the three numeric routines compute, one call of the chain function pushes
exactly one buffer; its size is `width`, its data has `width` cells and every cell has
been written with a byte value. -/
theorem chain_emits_width_bytes (K : Kernels) (spectrum : GstSpectrum) (buf : GstBuffer)
    (hc : spectrum.channels = 1 ∨ spectrum.channels = 2)
    (h1 : 1 ≤ spectrum.width) (h2 : spectrum.width ≤ 1024) (h : buf.is_pcm16) :
    ∃ out, gst_spectrum_chain K spectrum buf = some [out] ∧
      out.size = spectrum.width ∧ (out.data.length : Int) = spectrum.width ∧
      ∀ j : Nat, (j : Int) < spectrum.width →
        ∃ v, out.data[j]? = some (some v) ∧ 0 ≤ v ∧ v < 256 := by
  obtain ⟨loud, hloud, hlen⟩ := chain_loud_shape K spectrum.channels buf hc h
  obtain ⟨bars, hq, hblen, hb⟩ := quantize_spec loud spectrum.width hlen h1 h2
  refine ⟨{ data := bars, size := spectrum.width }, ?_, rfl, hblen, ?_⟩
  · simp only [gst_spectrum_chain, hloud, hq]
  · intro j hj
    obtain ⟨l, _, hbar⟩ := hb j hj
    exact ⟨bar_of l, hbar, (bar_of_range l).1, (bar_of_range l).2⟩

/-- C6 (witness): the output-length theorem at a three-sample mono block, width 1024 and
the concrete routines `demo_kernels`. -/
theorem chain_emits_width_bytes_witness :
    mono_block.is_pcm16 ∧
    ∃ out, gst_spectrum_chain demo_kernels { width := 1024, channels := 1 } mono_block
        = some [out] ∧
      out.size = 1024 ∧ (out.data.length : Int) = 1024 ∧
      ∀ j : Nat, (j : Int) < 1024 → ∃ v, out.data[j]? = some (some v) ∧ 0 ≤ v ∧ v < 256 :=
  ⟨mono_block_pcm16,
    chain_emits_width_bytes demo_kernels { width := 1024, channels := 1 } mono_block
      (Or.inl rfl) (by decide) (by decide) mono_block_pcm16⟩

/-- C7: the link function accepts a caps structure with `channels = 3`: it returns
`GST_PAD_LINK_OK` and stores 3 in `spectrum->channels`; more generally it accepts every
integer channel count `c` and stores it, and refuses only a structure without the field.
A stored count of 0, equally accepted, makes the chain function divide by zero. -/
theorem link_accepts_three_channels :
    gst_spectrum_link (gst_spectrum_init { width := 0, channels := 0 }) [("channels", 3)]
        = (GstPadLinkReturn.GST_PAD_LINK_OK, { width := 75, channels := 3 }) ∧
      (∀ (spectrum : GstSpectrum) (c : Int),
        gst_spectrum_link spectrum [("channels", c)]
          = (GstPadLinkReturn.GST_PAD_LINK_OK, { spectrum with channels := c })) ∧
      (∀ spectrum : GstSpectrum,
        gst_spectrum_link spectrum [] = (GstPadLinkReturn.GST_PAD_LINK_REFUSED, spectrum)) ∧
      ∀ buf : GstBuffer, chain_fill 0 buf = none := by
  refine ⟨by decide, ?_, ?_, ?_⟩
  · intro spectrum c
    simp [gst_spectrum_link, gst_structure_get_int, List.lookup]
  · intro spectrum
    rfl
  · intro buf
    simp [chain_fill, samples_count, c_div, to_gsize]

/-- C8: configuring a width in [1, 1024] stores it (the element's setter stores whatever
it is handed) and configuring a width outside [1, 1024] leaves the state, hence the
previous width, unchanged; 1 and 1024 are stored, 0 and 1025 are rejected; the instance
initialiser sets the width to 75, the default of the installed specification. -/
theorem width_configuration (spectrum : GstSpectrum) (value : Int) :
    configure_width spectrum value
        = (if 1 ≤ value ∧ value ≤ 1024 then { spectrum with width := value } else spectrum) ∧
      gst_spectrum_set_property spectrum ARG_WIDTH value = { spectrum with width := value } ∧
      (configure_width spectrum 1).width = 1 ∧
      (configure_width spectrum 1024).width = 1024 ∧
      configure_width spectrum 0 = spectrum ∧
      configure_width spectrum 1025 = spectrum ∧
      (gst_spectrum_init spectrum).width = 75 ∧
      width_pspec = { minimum := 1, maximum := 1024, default_value := 75 } := by
  refine ⟨?_, ?_, ?_, ?_, ?_, ?_, rfl, rfl⟩
  · unfold configure_width width_pspec SPECTRUM_MAX_WIDTH gst_spectrum_set_property
    simp
  · unfold gst_spectrum_set_property
    simp
  · simp [configure_width, width_pspec, SPECTRUM_MAX_WIDTH, gst_spectrum_set_property]
  · simp [configure_width, width_pspec, SPECTRUM_MAX_WIDTH, gst_spectrum_set_property]
  · simp [configure_width, width_pspec, SPECTRUM_MAX_WIDTH]
  · simp [configure_width, width_pspec, SPECTRUM_MAX_WIDTH]

/-- C10: for every width in [1, 1024] the division `spec_len / width` is defined, the
step is at least 1, every column `i` in `[0, width)` has `0 ≤ i * step < 1024`, and on
every loudness array of 1024 entries the bucketing loop completes with each read
`loud[i * step]` inside the array. -/
theorem bucket_positions_in_range (width : Int) (h1 : 1 ≤ width) (h2 : width ≤ 1024) :
    c_div spec_len width = some (Int.tdiv 1024 width) ∧
      1 ≤ Int.tdiv 1024 width ∧
      (∀ i : Int, 0 ≤ i → i < width →
        0 ≤ i * Int.tdiv 1024 width ∧ i * Int.tdiv 1024 width < 1024) ∧
      ∀ loud : List Int, loud.length = 1024 →
        (∃ bars, quantize loud width = some bars) ∧
        ∀ i : Nat, (i : Int) < width →
          ∃ l, load loud ((i : Int) * Int.tdiv 1024 width) = some l := by
  obtain ⟨hc, _, hs, hpos⟩ := step_facts width h1 h2
  refine ⟨hc, hs, hpos, ?_⟩
  intro loud hlen
  obtain ⟨bars, hq, _, hb⟩ := quantize_spec loud width hlen h1 h2
  refine ⟨⟨bars, hq⟩, ?_⟩
  intro i hi
  obtain ⟨l, hl, _⟩ := hb i hi
  exact ⟨l, hl⟩

/-- C10 (witness): the range theorem at width 1000, where the step is 1. -/
theorem bucket_positions_in_range_witness :
    (1 : Int) ≤ 1000 ∧ (1000 : Int) ≤ 1024 ∧
      c_div spec_len 1000 = some (Int.tdiv 1024 1000) ∧ 1 ≤ Int.tdiv 1024 1000 ∧
      ∀ i : Int, 0 ≤ i → i < 1000 →
        0 ≤ i * Int.tdiv 1024 1000 ∧ i * Int.tdiv 1024 1000 < 1024 :=
  ⟨by decide, by decide,
    (bucket_positions_in_range 1000 (by decide) (by decide)).1,
    (bucket_positions_in_range 1000 (by decide) (by decide)).2.1,
    (bucket_positions_in_range 1000 (by decide) (by decide)).2.2.1⟩

end Spectrum
